import Mathlib

/-!
Verification development for the MIGraphX repository sample: shapes,
the type-erased operation container (`operation.hpp`), the
`simplify_reshapes` pass (`simplify_reshapes.cpp`), the `softmax`
shape contract (`op/softmax.hpp`), and the memory planning passes
(`eliminate_allocation`, `memory_coloring`), whose implementations are
exercised by `test/eliminate_allocation_test.cpp` and
`test/memory_coloring_test.cpp` and are here modelled from the design
specification.
-/

set_option maxRecDepth 10000

namespace MIGraphX

/-- Round `n` up to the next multiple of `align` (alignment of byte
offsets; `align > 0` in all uses). -/
def roundUp (n align : Nat) : Nat :=
  if align = 0 then n else ((n + align - 1) / align) * align

/-- A tensor shape: element lengths and strides, all elements are
4-byte floats in the programs considered here (`shape::float_type`). -/
structure MShape where
  lens : List Nat
  strides : List Nat
  deriving DecidableEq, Repr

/-- Number of elements: product of the lengths. -/
def MShape.elements (s : MShape) : Nat := s.lens.foldr (· * ·) 1

/-- Byte size of a (packed) shape: elements times 4 bytes per float. -/
def MShape.bytes (s : MShape) : Nat := 4 * s.elements

/-- Row-major strides for a list of lengths: each stride is the
product of the trailing lengths. -/
def rowMajor : List Nat → List Nat
  | [] => []
  | _ :: t => (t.foldr (· * ·) 1) :: rowMajor t

/-- A standard shape: strides are the row-major products of the
trailing lens and all lens are positive (spec §3). -/
def MShape.standard (s : MShape) : Prop :=
  s.strides = rowMajor s.lens ∧ ∀ l ∈ s.lens, 0 < l

instance (s : MShape) : Decidable s.standard := by
  unfold MShape.standard; infer_instance

/-- Standard shape with the given lens. -/
def stdShape (lens : List Nat) : MShape := ⟨lens, rowMajor lens⟩

/-- A transposed shape: the strides are not monotone, i.e. not sorted
in non-increasing order (spec §3). -/
def MShape.transposed (s : MShape) : Prop :=
  ¬ List.Sorted (· ≥ ·) s.strides

instance (s : MShape) : Decidable s.transposed := by
  unfold MShape.transposed
  exact instDecidableNot

end MIGraphX

namespace MIGraphX

/-!  ## eliminate_allocation

Modelled from the spec: the `eliminate_allocation` pass itself is not
among the provided sources (only its test,
`test/eliminate_allocation_test.cpp`).  Per spec §4.4 and §9 it
replaces each `allocate` with an offset-view into a single `memory`
parameter, laying allocations out sequentially: the running byte
total is rounded up to the alignment *before* placing each
allocation, and the final size is the last running total after the
last placement, without a final round-up.
-/

namespace eliminate_allocation

/-- Offsets assigned to a sequence of allocation byte sizes starting
from a running total `acc`, together with the final running total:
each allocation is placed at the running total rounded up to `align`;
the new running total is its offset plus its size. -/
def layoutGo (align acc : Nat) : List Nat → List Nat × Nat
  | [] => ([], acc)
  | s :: t =>
    let off := roundUp acc align
    let (offs, total) := layoutGo align (off + s) t
    (off :: offs, total)

/-- Offsets and final `memory.bytes()` for a sequence of allocation
byte sizes. -/
def layout (align : Nat) (sizes : List Nat) : List Nat × Nat :=
  layoutGo align 0 sizes

/-- The offsets component of `layout`. -/
def offsets (align : Nat) (sizes : List Nat) : List Nat :=
  (layout align sizes).1

/-- The final `memory.bytes()` of `layout`. -/
def memoryBytes (align : Nat) (sizes : List Nat) : Nat :=
  (layout align sizes).2

/-- A test program for the pass: a sequence of `allocate` instructions
of the given shapes, each consumed by a `pass` instruction chained to
the previous one (as in the `basic`/`aligned` tests).  The program's
`get_shape()` is the shape of its last instruction, which is the final
`pass` instruction, whose shape is that of the last allocation; the
pass replaces each `allocate` by a `load` of identical shape so the
final shape is unchanged. -/
def programFinalShape (allocs : List MShape) : Option MShape :=
  allocs.getLast?

end eliminate_allocation

/-!  ## The type-erased operation container (`operation.hpp`)

A concrete operator is value-semantic; the container dispatches
`compute` over the overloads the concrete type provides, derives
equality and printing from the `reflect` declaration, and defaults
`output_alias` to `-1`.
-/

/-- The opaque per-target state passed into context-taking `compute`
overloads. -/
abbrev Context : Type := Nat

/-- The result of a `compute` call (a typed buffer; its contents are
irrelevant to the dispatch logic). -/
abbrev Argument : Type := Nat

/-- A concrete operator as seen through the type-erased container:
its `name()`, its reflected fields in the order its `reflect` method
declares them (name/value pairs), and its optional members: a
context-taking `compute` overload, a context-free `compute` overload,
and an `output_alias` member.  Distinct concrete C++ operator types
bear distinct names, and two values of the same concrete type carry
the same field-name list. -/
structure ConcreteOp where
  opname : String
  fields : List (String × Int)
  ctxCompute : Option (Context → MShape → List Argument → Argument)
  freeCompute : Option (MShape → List Argument → Argument)
  outputAliasFn : Option (List MShape → Int)

/-- The tuple of reflected field values (`reflect_tie`): only the
values, in reflection order. -/
def reflect_tie (x : ConcreteOp) : List Int := x.fields.map Prod.snd

/-- `operation_equal::operator==`: names must match, then the
reflected field tuples are compared (the `any_cast` to the concrete
type succeeds because equal names mean the same concrete type). -/
def operation_equal (x y : ConcreteOp) : Bool :=
  if x.opname ≠ y.opname then false
  else reflect_tie x = reflect_tie y

/-- `compute_op(x, ctx, output_shape, input)`: the context-taking
entry point.  `rank<2>`: use the context-taking overload if the
concrete type has one; `rank<1>`: otherwise use the context-free
overload; `rank<0>`: otherwise throw "Not computable". -/
def compute_op_ctx (x : ConcreteOp) (ctx : Context) (output : MShape)
    (input : List Argument) : Except String Argument :=
  match x.ctxCompute with
  | some f => .ok (f ctx output input)
  | none =>
    match x.freeCompute with
    | some f => .ok (f output input)
    | none => .error ("Not computable: " ++ x.opname)

/-- `compute_op(x, output_shape, input)`: the context-free entry
point.  `rank<2>`: use the context-free overload if present;
`rank<1>`: if only a context-taking overload exists, throw "Not
computable without a context"; `rank<0>`: otherwise throw "Not
computable". -/
def compute_op_free (x : ConcreteOp) (output : MShape)
    (input : List Argument) : Except String Argument :=
  match x.freeCompute with
  | some f => .ok (f output input)
  | none =>
    match x.ctxCompute with
    | some _ => .error ("Not computable without a context: " ++ x.opname)
    | none => .error ("Not computable: " ++ x.opname)

/-- `output_alias_op`: dispatch to the concrete type's `output_alias`
member if it has one (`rank<1>`), else return `-1` (`rank<0>`). -/
def output_alias_op (x : ConcreteOp) (shapes : List MShape) : Int :=
  match x.outputAliasFn with
  | some f => f shapes
  | none => -1

/-- One reflected field as printed: `name=value`. -/
def fieldStr (f : String × Int) : String := f.1 ++ "=" ++ toString f.2

/-- `operation_stream::operator<<`: print the name, then fold over the
reflected fields printing `delim ++ name ++ "=" ++ value` with the
delimiter starting as `[` and becoming `,`; close with `]` exactly
when the delimiter ended as `,` (i.e. at least one field was
visited). -/
def operation_stream (x : ConcreteOp) : String :=
  let step : String × String → String × Int → String × String :=
    fun acc f => (acc.1 ++ acc.2 ++ fieldStr f, ",")
  let r := x.fields.foldl step (x.opname, "[")
  if r.2 = "," then r.1 ++ "]" else r.1

/-- The bracketed field list in reflection order, comma separated:
the form the spec states for the bracket suffix. -/
def fieldsSuffix : List (String × Int) → String
  | [] => ""
  | [f] => fieldStr f
  | f :: g :: t => fieldStr f ++ "," ++ fieldsSuffix (g :: t)

/-- A sample operator providing only a context-taking `compute`
overload (like the GPU lowerings). -/
def opCtxOnly : ConcreteOp :=
  ⟨"gpu::add", [], some fun _ _ _ => 0, none, none⟩

/-- A sample operator providing only a context-free `compute`
overload (like the reference ops). -/
def opFreeOnly : ConcreteOp :=
  ⟨"identity", [], none, some fun _ _ => 0, none⟩

/-- A sample placeholder operator with neither `compute` overload nor
an `output_alias` member. -/
def opBare : ConcreteOp := ⟨"outline", [], none, none, none⟩

/-!  ## `softmax::compute_shape` (`op/softmax.hpp`) -/

/-- `softmax::compute_shape`: `check_shapes{inputs}.has(1).standard()`
requires exactly one standard input; then the `axis` field must lie in
`[0, rank)` or an out-of-range error is thrown; otherwise the input
shape is returned unchanged. -/
def softmax_compute_shape (axis : Int) (inputs : List MShape) :
    Except String MShape :=
  match inputs with
  | [s] =>
    if ¬ s.standard then .error "check_shapes: standard shape required"
    else if axis < 0 ∨ (s.lens.length : Int) ≤ axis then
      .error ("SoftMax: input axis value " ++ toString axis ++
        " is out of range")
    else .ok s
  | _ => .error "check_shapes: expected 1 input"

/-!  ## `simplify_reshapes` (`simplify_reshapes.cpp`)

Permutation helpers translated from the source, then a deep embedding
of the pass over a small program model (parameters, `transpose`,
`contiguous`, `concat`).  Program editing primitives
(`replace_instruction`, `insert_instruction`) and the shape rules of
`transpose`/`contiguous`/`concat` are modelled from the spec (§3,
§4.2), since `program.cpp` and the op headers other than `softmax`
are not among the provided sources.
-/

/-- The reshape-like operator names (`reshaper_names()`). -/
def reshaper_names : List String := ["reshape", "contiguous", "squeeze", "unsqueeze"]

/-- `reorder_dims(dims, permutation)`: `result[i] = dims[permutation[i]]`. -/
def reorder_dims (dims permutation : List Nat) : List Nat :=
  (List.range dims.length).map fun i => dims.getD (permutation.getD i 0) 0

/-- `is_no_transpose` helper: every adjacent pair increases by exactly
one (`adjacent_find` with `(y - x) != 1` finds nothing). -/
def adjacentAllSucc : List Nat → Bool
  | [] => true
  | [_] => true
  | x :: y :: t => decide (y - x = 1) && adjacentAllSucc (y :: t)

/-- `is_no_transpose(dims)`: empty, or starts at 0 and each adjacent
difference is exactly 1 — i.e. the identity permutation. -/
def is_no_transpose (dims : List Nat) : Bool :=
  match dims with
  | [] => true
  | d :: _ => decide (d = 0) && adjacentAllSucc dims

/-- Insert index `i` into an index list sorted by `lt` on `data`
values (stable: `i` goes before the first index whose key is not
below `i`'s key). -/
def insIdx (lt : Nat → Nat → Bool) (data : List Nat) (i : Nat) :
    List Nat → List Nat
  | [] => [i]
  | j :: t =>
    if lt (data.getD j 0) (data.getD i 0) then j :: insIdx lt data i t
    else i :: j :: t

/-- `sort_permutation(data, op)`: the index list `[0, n)` sorted by
`op` on the data values (insertion sort; deterministic — `std::sort`
agrees on the distinct-key data this pass sorts). -/
def sort_permutation (data : List Nat) (lt : Nat → Nat → Bool) : List Nat :=
  (List.range data.length).foldr (insIdx lt data) []

/-- `invert_permutation(permutation) = sort_permutation(permutation, less)`. -/
def invert_permutation (permutation : List Nat) : List Nat :=
  sort_permutation permutation (· < ·)

/-- `find_permutation(s) = sort_permutation(s.strides, greater)`. -/
def find_permutation (s : MShape) : List Nat :=
  sort_permutation s.strides (· > ·)

/-- The mathematical inverse of a permutation of `[0, n)`: position
`v` holds the index at which `p` holds `v`.  (Spec-side notion of
`inverse(perm)` in the transpose-fold claim.) -/
def perm_inverse (p : List Nat) : List Nat :=
  (List.range p.length).map fun v => p.indexOf v

/-- Operators of the modelled program fragment. -/
inductive MOp where
  | mparam (s : MShape)
  | transpose (perm : List Nat)
  | contiguous
  | concat (axis : Nat)
  deriving DecidableEq, Repr

/-- `name()` of a modelled operator. -/
def MOp.opName : MOp → String
  | .mparam _ => "@param"
  | .transpose _ => "transpose"
  | .contiguous => "contiguous"
  | .concat _ => "concat"

/-- `op::transpose::compute_shape`: lens and strides permuted by the
`dims` field (modelled from the spec's Shape/transpose description). -/
def permuteShape (perm : List Nat) (s : MShape) : MShape :=
  ⟨(List.range perm.length).map fun i => s.lens.getD (perm.getD i 0) 0,
   (List.range perm.length).map fun i => s.strides.getD (perm.getD i 0) 0⟩

/-- `op::concat::compute_shape`: the first input's lens with the
concat axis replaced by the summed axis lengths; standard output
(modelled from the spec). -/
def concatShape (axis : Nat) : List MShape → MShape
  | [] => ⟨[], []⟩
  | s :: rest =>
    let total := (s :: rest).foldl (fun a t => a + t.lens.getD axis 0) 0
    stdShape (s.lens.set axis total)

/-- Shape inference for a modelled operator from its input shapes. -/
def MOp.computeShape : MOp → List MShape → MShape
  | .mparam s, _ => s
  | .transpose perm, [s] => permuteShape perm s
  | .transpose _, _ => ⟨[], []⟩
  | .contiguous, [s] => stdShape s.lens
  | .contiguous, _ => ⟨[], []⟩
  | .concat ax, ss => concatShape ax ss

/-- An instruction: operator, input instruction ids, and the cached
output shape (set when the instruction is created, recomputed when
its operator is replaced). -/
structure Ins where
  op : MOp
  args : List Nat
  shp : MShape
  deriving DecidableEq, Repr

instance : Inhabited Ins := ⟨⟨.mparam ⟨[], []⟩, [], ⟨[], []⟩⟩⟩

/-- A program: instructions in program order keyed by stable ids, the
id of the program's result (`get_shape()` is taken from it), and a
fresh-id counter for inserted instructions. -/
structure Prog where
  instrs : List (Nat × Ins)
  ret : Nat
  nextId : Nat
  deriving DecidableEq, Repr

/-- Look up an instruction by id. -/
def Prog.at (p : Prog) (i : Nat) : Ins := ((p.instrs.lookup i).getD default)

/-- The ids of the instructions that use `i` as an input (the output
set), in program order. -/
def Prog.users (p : Prog) (i : Nat) : List Nat :=
  (p.instrs.filter fun x => i ∈ x.2.args).map Prod.fst

/-- Operator name of instruction `i`. -/
def Prog.nameAt (p : Prog) (i : Nat) : String := (p.at i).op.opName

/-- Cached shape of instruction `i`. -/
def Prog.shapeAt (p : Prog) (i : Nat) : MShape := (p.at i).shp

/-- Inputs of instruction `i`. -/
def Prog.argsAt (p : Prog) (i : Nat) : List Nat := (p.at i).args

/-- `replace_instruction(ins, rep)` (spec §4.2): redirect every user
of `ins` to `rep`; the program result, when it was `ins`, becomes
`rep`.  The dead node stays behind (dead-code elimination is a
separate pass). -/
def replaceRef (p : Prog) (i rep : Nat) : Prog :=
  { p with
    instrs := p.instrs.map fun x =>
      (x.1, { x.2 with args := x.2.args.map fun a => if a = i then rep else a }),
    ret := if p.ret = i then rep else p.ret }

/-- `replace_instruction(ins, op, args)` (spec §4.2): rewrite the node
in place with a new operator and inputs, re-running shape inference. -/
def replaceWithOp (p : Prog) (i : Nat) (op : MOp) (args : List Nat) : Prog :=
  let shp := op.computeShape (args.map p.shapeAt)
  { p with
    instrs := p.instrs.map fun x => if x.1 = i then (i, ⟨op, args, shp⟩) else x }

/-- `insert_instruction(before, op, args)` (spec §4.2): create a fresh
node just before position `pos`, running shape inference; returns the
new id. -/
def insertBefore (p : Prog) (pos : Nat) (op : MOp) (args : List Nat) :
    Prog × Nat :=
  let shp := op.computeShape (args.map p.shapeAt)
  let idx := p.instrs.findIdx fun x => x.1 = pos
  ({ p with
     instrs := p.instrs.take idx ++ (p.nextId, ⟨op, args, shp⟩) :: p.instrs.drop idx,
     nextId := p.nextId + 1 }, p.nextId)

/-- `is_reshaper`: the instruction's name is a reshaper name. -/
def Prog.isReshaper (p : Prog) (i : Nat) : Bool := p.nameAt i ∈ reshaper_names

/-- `find_transpose_input`: if the instruction has exactly one input,
walk through `contiguous` nodes; answer a direct `transpose` input,
else the instruction itself. -/
def find_transpose_input (p : Prog) : Nat → Nat → Nat
  | 0, i => i
  | fuel + 1, i =>
    if (p.argsAt i).length ≠ 1 then i
    else
      let a := (p.argsAt i).headD 0
      if p.nameAt a = "contiguous" then find_transpose_input p fuel a
      else if p.nameAt a = "transpose" then a
      else i

/-- `get_transpose_dims`: the `dims` field of a transpose. -/
def Prog.transposeDims (p : Prog) (i : Nat) : List Nat :=
  match (p.at i).op with
  | .transpose perm => perm
  | _ => []

/-- `match::skip_output(match::name("contiguous"))(match::name("transpose"))`:
walk down users, skipping through `contiguous`, looking for a
`transpose`. -/
def skipOutContigTranspose (p : Prog) : Nat → Nat → Bool
  | 0, _ => false
  | fuel + 1, i =>
    (p.users i).any fun u =>
      p.nameAt u = "transpose" ∨
        (p.nameAt u = "contiguous" ∧ skipOutContigTranspose p fuel u)

/-- `find_nop_reshapes` matcher: a reshaper/`transpose`/`slice` whose
shape equals its first input's shape (`same_shape(arg(0))`). -/
def matchNop (p : Prog) (i : Nat) : Bool :=
  (p.nameAt i ∈ reshaper_names ++ ["transpose", "slice"]) ∧
    p.argsAt i ≠ [] ∧ p.shapeAt i = p.shapeAt ((p.argsAt i).headD 0)

/-- `find_nop_reshapes` apply: replace the instruction with its first
input. -/
def applyNop (p : Prog) (i : Nat) : Prog :=
  replaceRef p i ((p.argsAt i).headD 0)

/-- `find_reshaper` matcher: a reshaper one of whose users is also a
reshaper (`any_of[outputs()](name(reshaper_names))`). -/
def matchReshaper (p : Prog) (i : Nat) : Bool :=
  p.isReshaper i ∧ (p.users i).any p.isReshaper

/-- The chain `{ins, input, input-of-input, …}` walked upward while
the tail is a reshaper; the final element is the first non-reshaper
ancestor. -/
def reshaperChain (p : Prog) : Nat → Nat → List Nat
  | 0, i => [i]
  | fuel + 1, i =>
    if p.isReshaper i then i :: reshaperChain p fuel ((p.argsAt i).headD 0)
    else [i]

/-- The replacement pair of `find_reshaper::apply`: the first chain
member (scanning from the instruction upward) for which some deeper
chain member has the same shape; paired with the deepest such
member. -/
def reshaperPair (p : Prog) (chain : List Nat) : Option (Nat × Nat) :=
  chain.findSome? fun start =>
    (chain.reverse.find? fun j =>
        p.shapeAt j = p.shapeAt start ∧ j ≠ start).map fun last =>
      (start, last)

/-- `find_reshaper` apply: replace the pair's first member by its
deeper equal-shaped member, if any. -/
def applyReshaper (p : Prog) (i : Nat) : Prog :=
  match reshaperPair p (reshaperChain p (p.instrs.length + 1) i) with
  | some (a, b) => replaceRef p a b
  | none => p

/-- `find_transpose` matcher: a `transpose` none of whose
skip-`contiguous` output chains reaches another `transpose`. -/
def matchTranspose (p : Prog) (i : Nat) : Bool :=
  p.nameAt i = "transpose" ∧
    ¬ skipOutContigTranspose p (p.instrs.length + 1) i

/-- The do-while loop of `find_transpose::apply`: starting from the
anchor with the identity dims, repeatedly compose the current
transpose's dims and step to `find_transpose_input`; stop when the
step stands still or leaves the transposes.  Returns the final
accumulated dims and the last `t`. -/
def transposeFoldGo (p : Prog) : Nat → List Nat → Nat → List Nat × Nat
  | 0, dims, t => (dims, t)
  | fuel + 1, dims, tcur =>
    let dims' := reorder_dims (p.transposeDims tcur) dims
    let t := find_transpose_input p (p.instrs.length + 1) tcur
    if tcur ≠ t ∧ p.nameAt t = "transpose" then transposeFoldGo p fuel dims' t
    else (dims', t)

/-- `find_transpose` apply: fold the transpose chain; a one-element
chain is left alone; an identity composite is replaced by the deepest
transpose's input, any other composite by a single transpose of it. -/
def applyFindTranspose (p : Prog) (i : Nat) : Prog :=
  let rank := (p.shapeAt i).lens.length
  let r := transposeFoldGo p (p.instrs.length + 1) (List.range rank) i
  if r.2 = i ∨ p.nameAt r.2 ≠ "transpose" then p
  else if is_no_transpose r.1 then replaceRef p i ((p.argsAt r.2).headD 0)
  else replaceWithOp p i (.transpose r.1) [(p.argsAt r.2).headD 0]

/-- `find_concat_transpose` matcher: a `concat` whose inputs all share
one shape (`same_input_shapes`) and are all transposed-shaped. -/
def matchConcatTranspose (p : Prog) (i : Nat) : Bool :=
  p.nameAt i = "concat" ∧ p.argsAt i ≠ [] ∧
    (p.argsAt i).all
      (fun a => p.shapeAt a = p.shapeAt ((p.argsAt i).headD 0)) ∧
    (p.argsAt i).all fun a => p.shapeAt a |>.transposed

/-- `find_concat_transpose` apply: lift the concat above the common
permutation — each transpose input with a standard input contributes
that input directly, any other input gets a fresh transpose inserted;
a fresh concat on the mapped axis and a transpose by the inverse
permutation replace the anchor. -/
def applyConcatTranspose (p : Prog) (i : Nat) : Prog :=
  let s := p.shapeAt ((p.argsAt i).headD 0)
  let axis := match (p.at i).op with | .concat a => a | _ => 0
  let permutation := find_permutation s
  let ipermutation := invert_permutation permutation
  let step : Prog × List Nat → Nat → Prog × List Nat := fun acc a =>
    if acc.1.nameAt a = "transpose" ∧
        (acc.1.shapeAt ((acc.1.argsAt a).headD 0)).standard then
      (acc.1, acc.2 ++ [(acc.1.argsAt a).headD 0])
    else
      let r := insertBefore acc.1 i (.transpose permutation) [a]
      (r.1, acc.2 ++ [r.2])
  let r := (p.argsAt i).foldl step (p, [])
  let rc := insertBefore r.1 i (.concat (ipermutation.getD axis 0)) r.2
  let rt := insertBefore rc.1 i (.transpose ipermutation) [rc.2]
  replaceRef rt.1 i rt.2

/-- One step of `simplify_reshapes::apply` at instruction `i`: skip a
terminal `contiguous` and (non-terminal) dead instructions, then try
the four matchers in order, applying the first that matches. -/
def processIns (sweepEnd : Nat) (p : Prog) (i : Nat) : Prog :=
  if i = sweepEnd ∧ p.nameAt i = "contiguous" then p
  else if p.users i = [] ∧ i ≠ sweepEnd then p
  else if matchNop p i then applyNop p i
  else if matchReshaper p i then applyReshaper p i
  else if matchTranspose p i then applyFindTranspose p i
  else if matchConcatTranspose p i then applyConcatTranspose p i
  else p

/-- `simplify_reshapes::apply`: walk the instructions in program
order (the pass's rewrites never insert after the iteration point, so
the visited instructions are the ids present at the start), applying
the first matching rewrite at each. -/
def simplify_reshapes (p : Prog) : Prog :=
  let sweepEnd := ((p.instrs.getLast?).map Prod.fst).getD 0
  (p.instrs.map Prod.fst).foldl (processIns sweepEnd) p

/-- Convenience: a chain program `x : s`, `t1 = transpose p1 x`,
`t2 = transpose p2 t1` with ids 0, 1, 2, where `x` is a parameter and
`t2` is the program result (the published transpose-chain scenario). -/
def chain2 (s : MShape) (p1 p2 : List Nat) : Prog :=
  let s1 := permuteShape p1 s
  let s2 := permuteShape p2 s1
  ⟨[(0, ⟨.mparam s, [], s⟩),
    (1, ⟨.transpose p1, [0], s1⟩),
    (2, ⟨.transpose p2, [1], s2⟩)], 2, 3⟩

/-- The chain program after the first transpose is nop-folded onto the
parameter: both transposes now read the parameter directly. -/
def chain2A (s : MShape) (p1 p2 : List Nat) : Prog :=
  let s1 := permuteShape p1 s
  let s2 := permuteShape p2 s1
  ⟨[(0, ⟨.mparam s, [], s⟩),
    (1, ⟨.transpose p1, [0], s1⟩),
    (2, ⟨.transpose p2, [0], s2⟩)], 2, 3⟩

/-- The chain program after the transpose pair is folded into a single
transpose of the composed dims reading the parameter directly. -/
def chain2B (s : MShape) (p1 c : List Nat) : Prog :=
  ⟨[(0, ⟨.mparam s, [], s⟩),
    (1, ⟨.transpose p1, [0], permuteShape p1 s⟩),
    (2, ⟨.transpose c, [0], permuteShape c s⟩)], 2, 3⟩

/-- A two-transpose chain over the non-trivially symmetric shape
`lens [1,1,2]`, `strides [2,2,1]`: the composed permutation `[1,0,2]`
is not the identity but preserves the shape.  The first application of
the pass folds the pair into one shape-preserving transpose; only the
second application then nop-folds it onto the parameter. -/
def cexChain : Prog := chain2 ⟨[1, 1, 2], [2, 2, 1]⟩ [2, 0, 1] [2, 1, 0]

/-!  ## `memory_coloring`

Modelled from the spec (§4.5): the pass implementation is not among
the provided sources (only its test, `test/memory_coloring_test.cpp`).
Live ranges run from the allocator instruction to the latest consumer
still reading from the allocation's buffer, traced through output
alias chains (the test's `pass_op` and the concat write into their
first input's buffer).  Two allocations interfere when their live
ranges overlap or, across streams, when they are concurrently
reachable; `wait_event` synchronizes with the most recent prior
`record_event` on a different stream (which in these linearized test
programs is the dominating record).  Allocations are placed largest
first (ties by earliest begin) at the lowest aligned offset avoiding
every placed interfering interval.
-/

/-- Operators of the coloring test programs.  `alloc` reserves a
buffer of the given shape; `passop` and `cconcat` write into their
first input's buffer (output alias 0); `load` is the scratch view the
pass rewrites an `alloc` into. -/
inductive CKind where
  | alloc (s : MShape)
  | passop
  | cconcat
  | cparam
  | outline
  | setStream
  | load (offset : Nat) (s : MShape)
  deriving DecidableEq, Repr

/-- An instruction of a coloring test program: operator, input
positions, assigned stream (none = unassigned), and the event mask. -/
structure CIns where
  kind : CKind
  args : List Nat
  stream : Option Nat
  recEv : Bool
  waitEv : Bool
  deriving DecidableEq, Repr

/-- Instruction at position `i` (positions index the list). -/
def cAt (prog : List CIns) (i : Nat) : CIns :=
  prog.getD i ⟨.cparam, [], none, false, false⟩

/-- Plain instruction without stream or events. -/
def cmk (kind : CKind) (args : List Nat) : CIns := ⟨kind, args, none, false, false⟩

/-- Instruction on a stream, with optional record/wait flags. -/
def cmkS (kind : CKind) (args : List Nat) (stream : Nat) (r w : Bool) : CIns :=
  ⟨kind, args, some stream, r, w⟩

/-- The allocation whose buffer position `i` writes into: an `alloc`
is its own buffer; `passop`/`cconcat` write into their first input's
buffer (output alias chain); other instructions own no allocation
buffer. -/
def bufOf (prog : List CIns) : Nat → Nat → Option Nat
  | 0, _ => none
  | fuel + 1, i =>
    match (cAt prog i).kind with
    | .alloc _ => some i
    | .passop => bufOf prog fuel ((cAt prog i).args.headD 0)
    | .cconcat => bufOf prog fuel ((cAt prog i).args.headD 0)
    | _ => none

/-- Does instruction `i` read or write allocation `a`'s buffer (some
input reaches `a` through the alias chain)? -/
def usesBuf (prog : List CIns) (i a : Nat) : Bool :=
  (cAt prog i).args.any fun x => bufOf prog prog.length x = some a

/-- The instructions whose inputs reach allocation `a`'s buffer, in
program order (the writer first, then the readers). -/
def usersOfBuf (prog : List CIns) (a : Nat) : List Nat :=
  (List.range prog.length).filter fun i => usesBuf prog i a

/-- The last position whose inputs reach allocation `a`'s buffer
(`a` itself if never consumed): the end of `a`'s live range. -/
def lastUse (prog : List CIns) (a : Nat) : Nat :=
  ((usersOfBuf prog a).getLast?).getD a

/-- Live ranges `[a, lastUse a]` and `[b, lastUse b]` overlap. -/
def rangesOverlap (prog : List CIns) (a b : Nat) : Bool :=
  a ≤ lastUse prog b ∧ b ≤ lastUse prog a

/-- The stream an allocation lives on: the stream of its writer (its
first consumer, which writes into it through the alias). -/
def allocStream (prog : List CIns) (a : Nat) : Option Nat :=
  match (usersOfBuf prog a).head? with
  | some w => (cAt prog w).stream
  | none => none

/-- Happens-before edges: same-stream program order, data
dependencies, and each `wait_event` paired with the most recent prior
`record_event` on a different stream. -/
def hbEdges (prog : List CIns) : List (Nat × Nat) :=
  let n := prog.length
  let streamOrder := (List.range n).flatMap fun i =>
    ((List.range n).filter fun j =>
      i < j ∧ (cAt prog i).stream ≠ none ∧
        (cAt prog i).stream = (cAt prog j).stream).map fun j => (i, j)
  let dataDeps := (List.range n).flatMap fun i =>
    (cAt prog i).args.map fun a => (a, i)
  let recWait := (List.range n).filterMap fun j =>
    if (cAt prog j).waitEv then
      (((List.range j).filter fun i =>
          (cAt prog i).recEv ∧ (cAt prog i).stream ≠ (cAt prog j).stream
        ).getLast?).map fun i => (i, j)
    else none
  streamOrder ++ dataDeps ++ recWait

/-- Merge, keeping the first occurrence of each element. -/
def mergeDedup (acc xs : List Nat) : List Nat := acc ++ xs.filter (¬ · ∈ acc)

/-- Reachability table over the (forward-pointing) happens-before
edges: entry `i` lists every position reachable from `i`, built from
the last position downward. -/
def reachTable (es : List (Nat × Nat)) (n : Nat) : List (Nat × List Nat) :=
  (List.range n).reverse.foldl
    (fun tbl i =>
      let succ := (es.filter fun e => e.1 = i).map Prod.snd
      let r := succ.foldl
        (fun acc j => mergeDedup acc ((tbl.lookup j).getD [j])) [i]
      (i, r) :: tbl)
    []

/-- `i` happens before `j` (strictly). -/
def hbIn (tbl : List (Nat × List Nat)) (i j : Nat) : Bool :=
  i ≠ j ∧ j ∈ (tbl.lookup i).getD []

/-- Instructions on two different streams are concurrent when neither
happens before the other. -/
def concurrentIns (prog : List CIns) (tbl : List (Nat × List Nat))
    (i j : Nat) : Bool :=
  (cAt prog i).stream ≠ none ∧ (cAt prog j).stream ≠ none ∧
    (cAt prog i).stream ≠ (cAt prog j).stream ∧
    ¬ hbIn tbl i j ∧ ¬ hbIn tbl j i

/-- Allocations on different streams are concurrently reachable when
some pair of their live instructions is concurrent. -/
def concReachable (prog : List CIns) (tbl : List (Nat × List Nat))
    (a b : Nat) : Bool :=
  allocStream prog a ≠ allocStream prog b ∧
    (usersOfBuf prog a).any fun i =>
      (usersOfBuf prog b).any fun j => concurrentIns prog tbl i j

/-- Interference: overlapping live ranges, or concurrent
reachability across streams. -/
def interfere (prog : List CIns) (tbl : List (Nat × List Nat))
    (a b : Nat) : Bool :=
  rangesOverlap prog a b ∨ concReachable prog tbl a b

/-- Byte size of the allocation at position `a`. -/
def allocBytes (prog : List CIns) (a : Nat) : Nat :=
  match (cAt prog a).kind with
  | .alloc s => s.bytes
  | _ => 0

/-- The positions of the `alloc` instructions. -/
def allocPositions (prog : List CIns) : List Nat :=
  (List.range prog.length).filter fun i =>
    match (cAt prog i).kind with
    | .alloc _ => true
    | _ => false

/-- Allocation order: decreasing byte size, ties by earliest begin. -/
def allocBefore (prog : List CIns) (a b : Nat) : Bool :=
  allocBytes prog a > allocBytes prog b ∨
    (allocBytes prog a = allocBytes prog b ∧ a ≤ b)

/-- Stable insertion into a list sorted by `allocBefore`. -/
def insAlloc (prog : List CIns) (a : Nat) : List Nat → List Nat
  | [] => [a]
  | b :: t =>
    if allocBefore prog b a then b :: insAlloc prog a t else a :: b :: t

/-- Allocations sorted by `allocBefore` (insertion sort). -/
def sortedAllocs (prog : List CIns) : List Nat :=
  (allocPositions prog).foldr (insAlloc prog) []

/-- The lowest aligned offset at which `[cand, cand+size)` avoids
every interval in `ivs`: on a conflict, jump past the conflicting
interval (rounded up) and retry. -/
def fitGo (align size : Nat) (ivs : List (Nat × Nat)) :
    Nat → Nat → Nat
  | 0, cand => cand
  | fuel + 1, cand =>
    match ivs.find? fun iv => cand < iv.1 + iv.2 ∧ iv.1 < cand + size with
    | none => cand
    | some iv => fitGo align size ivs fuel (roundUp (iv.1 + iv.2) align)

/-- First-fit placement of every allocation in sorted order: each is
placed at the lowest aligned offset avoiding the already-placed
interfering intervals (zero-byte allocations go to offset 0). -/
def placeAllocs (prog : List CIns) (align : Nat) : List (Nat × Nat) :=
  let tbl := reachTable (hbEdges prog) prog.length
  (sortedAllocs prog).foldl
    (fun placed a =>
      let sz := allocBytes prog a
      let ivs := placed.filterMap fun pb =>
        if interfere prog tbl a pb.1 then some (pb.2, allocBytes prog pb.1)
        else none
      let off := if sz = 0 then 0
        else fitGo align sz ivs (ivs.length + 1) 0
      placed ++ [(a, off)])
    []

/-- The byte offset the pass assigns to allocation `a`. -/
def offsetOf (prog : List CIns) (align a : Nat) : Nat :=
  ((placeAllocs prog align).lookup a).getD 0

/-- `scratch.bytes()`: the maximum `offset + aligned size` over all
placements. -/
def scratchBytes (prog : List CIns) (align : Nat) : Nat :=
  (placeAllocs prog align).foldl
    (fun acc pb => max acc (pb.2 + roundUp (allocBytes prog pb.1) align)) 0

/-- The rewritten program: every `allocate` becomes a `load` view of
the scratch buffer at its assigned offset (spec §4.5: every
`allocate` is replaced by a view into a single `scratch` parameter). -/
def colorRewrite (prog : List CIns) (align : Nat) : List CIns :=
  (List.range prog.length).map fun i =>
    match (cAt prog i).kind with
    | .alloc s =>
      { cAt prog i with kind := .load (offsetOf prog align i) s, args := [] }
    | _ => cAt prog i

/-- No `allocate` instruction remains. -/
def noAllocate (prog : List CIns) : Bool :=
  prog.all fun ins =>
    match ins.kind with
    | .alloc _ => false
    | _ => true

/-- The program of `memory_coloring_test.cpp:test11`: three
allocations `f32[8]`, `f32[40]`, `f32[8]`; the first is consumed by
`p1`, the second and `p1` by `p2`, the third and `p2` by the final
instruction.  Positions: outline 0, alloc 1, p1 2, outline 3,
alloc 4, outline 5, alloc 6, p2 7, final 8. -/
def test11Prog : List CIns :=
  [cmk .outline [],
   cmk (.alloc (stdShape [8])) [0],
   cmk .passop [1],
   cmk .outline [],
   cmk (.alloc (stdShape [40])) [3],
   cmk .outline [],
   cmk (.alloc (stdShape [8])) [5],
   cmk .passop [4, 2],
   cmk .passop [6, 7]]

/-- The program of `memory_coloring_test.cpp:concurrent_test`: eight
`f32[40]` allocations; a producer chain on stream 0 (recording after
`p1`), consumer chains on streams 1 and 2 (each waiting then
recording), and a concat on stream 0 that waits for them. -/
def concurrentProg : List CIns :=
  [cmk .cparam [],                       -- 0: parameter "0"
   cmk .outline [],                      -- 1
   cmk (.alloc (stdShape [40])) [1],     -- 2: a1
   cmk .setStream [],                    -- 3: set_stream 0
   cmkS .passop [2, 0] 0 true false,     -- 4: p1 (record)
   cmk .outline [],                      -- 5
   cmk (.alloc (stdShape [40])) [5],     -- 6: a2
   cmkS .passop [6, 4] 0 false false,    -- 7: p2
   cmk .outline [],                      -- 8
   cmk (.alloc (stdShape [40])) [8],     -- 9: a4
   cmkS .passop [9, 7] 0 false false,    -- 10: p4
   cmk .outline [],                      -- 11
   cmk (.alloc (stdShape [40])) [11],    -- 12: a3
   cmk .setStream [],                    -- 13: set_stream 1
   cmkS .passop [12, 4] 1 false true,    -- 14: p3 (wait)
   cmk .outline [],                      -- 15
   cmk (.alloc (stdShape [40])) [15],    -- 16: a5
   cmkS .passop [16, 14] 1 true false,   -- 17: p5 (record)
   cmk .outline [],                      -- 18
   cmk (.alloc (stdShape [40])) [18],    -- 19: a6
   cmk .setStream [],                    -- 20: set_stream 2
   cmkS .passop [19, 4] 2 false true,    -- 21: p6 (wait)
   cmk .outline [],                      -- 22
   cmk (.alloc (stdShape [40])) [22],    -- 23: a7
   cmkS .passop [23, 21] 2 true false,   -- 24: p7 (record)
   cmk .outline [],                      -- 25
   cmk (.alloc (stdShape [40])) [25],    -- 26: a8
   cmk .setStream [],                    -- 27: set_stream 0
   cmkS .cconcat [26, 10, 17, 24] 0 false true]  -- 28: p8 (wait)

/-!  ## Helper lemmas -/

/-- The last allocation is placed at the previous running total
rounded up to the alignment, and the final size is its offset plus its
byte size, with no final round-up. -/
theorem layoutGo_append_last (align acc s : Nat) (l : List Nat) :
    (eliminate_allocation.layoutGo align acc (l ++ [s])).2 =
      roundUp (eliminate_allocation.layoutGo align acc l).2 align + s := by
  induction l generalizing acc with
  | nil => rfl
  | cons a t ih =>
    simpa [eliminate_allocation.layoutGo] using ih (roundUp acc align + a)

/-- `perm_inverse p` at a position below `n` is the index of that
value in `p`. -/
theorem perm_inverse_getD {n : Nat} {p : List Nat} (hlen : p.length = n)
    (i : Nat) (hi : i < n) : (perm_inverse p).getD i 0 = p.indexOf i := by
  unfold perm_inverse
  rw [List.getD_eq_getElem _ _ (by simpa [hlen] using hi)]
  simp

/-- Composing a permutation of `[0, n)` with its inverse by
`reorder_dims` yields the identity permutation. -/
theorem reorder_dims_perm_inverse {n : Nat} {p : List Nat}
    (hp : p.Perm (List.range n)) :
    reorder_dims p (perm_inverse p) = List.range n := by
  have hlen : p.length = n := by simpa using hp.length_eq
  unfold reorder_dims
  apply List.ext_getElem
  · simp [hlen]
  · intro i h1 h2
    simp only [List.getElem_map, List.getElem_range]
    have hi : i < n := by simpa [hlen] using h2
    rw [perm_inverse_getD hlen i hi]
    have hmem : i ∈ p := hp.mem_iff.2 (List.mem_range.2 hi)
    have hidx : p.indexOf i < p.length := List.indexOf_lt_length.2 hmem
    rw [List.getD_eq_getElem _ _ hidx]
    exact List.getElem_indexOf hidx

/-- Adjacent elements of `range' a m` always increase by one. -/
theorem adjacentAllSucc_range' (a : Nat) :
    ∀ m, adjacentAllSucc (List.range' a m) = true := by
  intro m
  induction m generalizing a with
  | zero => rfl
  | succ k ih =>
    cases k with
    | zero => rfl
    | succ k' =>
      rw [List.range'_succ]
      rw [List.range'_succ]
      simp only [adjacentAllSucc]
      rw [← List.range'_succ]
      simp [ih (a + 1)]

/-- The identity permutation is recognized by `is_no_transpose`. -/
theorem is_no_transpose_range (n : Nat) :
    is_no_transpose (List.range n) = true := by
  cases n with
  | zero => rfl
  | succ k =>
    have h := adjacentAllSucc_range' 0 (k + 1)
    rw [List.range_eq_range']
    rw [List.range'_succ] at h ⊢
    unfold is_no_transpose
    simp [h]

/-- Pointwise inverse-permutation cancellation on a value list. -/
theorem permute_vals_inverse {n : Nat} {p : List Nat}
    (hp : p.Perm (List.range n)) (l : List Nat) (hl : l.length = n) :
    (List.range n).map (fun i =>
      ((List.range n).map (fun j => l.getD (p.getD j 0) 0)).getD
        ((perm_inverse p).getD i 0) 0) = l := by
  have hlen : p.length = n := by simpa using hp.length_eq
  apply List.ext_getElem
  · simp [hl]
  · intro i h1 h2
    simp only [List.getElem_map, List.getElem_range]
    have hi : i < n := by simpa using h1
    rw [perm_inverse_getD hlen i hi]
    have hmem : i ∈ p := hp.mem_iff.2 (List.mem_range.2 hi)
    have hidx : p.indexOf i < p.length := List.indexOf_lt_length.2 hmem
    rw [List.getD_eq_getElem _ _ (by simpa [hlen] using hidx)]
    simp only [List.getElem_map, List.getElem_range]
    rw [List.getD_eq_getElem _ _ hidx, List.getElem_indexOf hidx,
      List.getD_eq_getElem _ _ (by rw [hl]; exact hi)]

/-- Transposing by a permutation and then by its inverse restores the
shape. -/
theorem permuteShape_perm_inverse {n : Nat} {p : List Nat}
    (hp : p.Perm (List.range n)) (s : MShape)
    (hl : s.lens.length = n) (hs : s.strides.length = n) :
    permuteShape (perm_inverse p) (permuteShape p s) = s := by
  have hlen : p.length = n := by simpa using hp.length_eq
  have hinv : (perm_inverse p).length = n := by simp [perm_inverse, hlen]
  unfold permuteShape
  simp only [hinv, hlen]
  cases s with
  | mk lens strides =>
    simp only [MShape.mk.injEq]
    exact ⟨permute_vals_inverse hp lens hl, permute_vals_inverse hp strides hs⟩

/-- The rank of a transposed shape is the permutation's length. -/
theorem permuteShape_rank (perm : List Nat) (s : MShape) :
    (permuteShape perm s).lens.length = perm.length := by
  simp [permuteShape]

/-- Reordering by the identity permutation changes nothing. -/
theorem reorder_dims_range {q : List Nat} {n : Nat} (hql : q.length = n) :
    reorder_dims q (List.range n) = q := by
  unfold reorder_dims
  apply List.ext_getElem
  · simp
  · intro i h1 h2
    have hi : i < n := by rw [← hql]; simpa using h2
    simp only [List.getElem_map, List.getElem_range]
    have hr : (List.range n).getD i 0 = i := by
      rw [List.getD_eq_getElem _ _ (by simpa using hi), List.getElem_range]
    rw [hr, List.getD_eq_getElem _ _ h2]

theorem chain2_applyFT (s : MShape) (p q : List Nat) (n : Nat)
    (hql : q.length = n) :
    applyFindTranspose (chain2 s p q) 2 =
      if is_no_transpose (reorder_dims p q) = true then
        { chain2 s p q with ret := 0 }
      else replaceWithOp (chain2 s p q) 2 (.transpose (reorder_dims p q)) [0] := by
  have hrank : (Prog.shapeAt (chain2 s p q) 2).lens.length = n := by
    show (permuteShape q (permuteShape p s)).lens.length = n
    simp [permuteShape, hql]
  have hfold : transposeFoldGo (chain2 s p q) ((chain2 s p q).instrs.length + 1)
      (List.range (Prog.shapeAt (chain2 s p q) 2).lens.length) 2
      = (reorder_dims p (reorder_dims q
          (List.range (Prog.shapeAt (chain2 s p q) 2).lens.length)), 1) := rfl
  simp only [applyFindTranspose]
  rw [hfold]
  show (if is_no_transpose (reorder_dims p (reorder_dims q
      (List.range (Prog.shapeAt (chain2 s p q) 2).lens.length))) = true
    then _ else _) = _
  rw [hrank, reorder_dims_range hql]
  cases hC : is_no_transpose (reorder_dims p q) with
  | true => rfl
  | false => rfl

theorem chain2_step0 (s : MShape) (p q : List Nat) :
    processIns 2 (chain2 s p q) 0 = chain2 s p q := rfl

theorem chain2_step1_nop (s : MShape) (p q : List Nat)
    (h1 : permuteShape p s = s) :
    processIns 2 (chain2 s p q) 1 = chain2A s p q := by
  have hm : matchNop (chain2 s p q) 1 = true :=
    decide_eq_true ⟨of_decide_eq_true rfl, of_decide_eq_true rfl, h1⟩
  simp only [processIns, hm]
  rfl

theorem chain2_step1_skip (s : MShape) (p q : List Nat)
    (h1 : permuteShape p s ≠ s) :
    processIns 2 (chain2 s p q) 1 = chain2 s p q := by
  have hm : matchNop (chain2 s p q) 1 = false :=
    decide_eq_false fun h => h1 h.2.2
  simp only [processIns, hm]
  rfl

theorem chain2_step2_nop (s : MShape) (p q : List Nat)
    (h2 : permuteShape q (permuteShape p s) = permuteShape p s) :
    processIns 2 (chain2 s p q) 2 = { chain2 s p q with ret := 1 } := by
  have hm : matchNop (chain2 s p q) 2 = true :=
    decide_eq_true ⟨of_decide_eq_true rfl, of_decide_eq_true rfl, h2⟩
  simp only [processIns, hm]
  rfl

theorem chain2_step2_fold (s : MShape) (p q : List Nat) (n : Nat)
    (hql : q.length = n)
    (h2 : permuteShape q (permuteShape p s) ≠ permuteShape p s) :
    processIns 2 (chain2 s p q) 2 =
      if is_no_transpose (reorder_dims p q) = true then
        { chain2 s p q with ret := 0 }
      else replaceWithOp (chain2 s p q) 2 (.transpose (reorder_dims p q)) [0] := by
  have hm : matchNop (chain2 s p q) 2 = false :=
    decide_eq_false fun h => h2 h.2.2
  have hstep : processIns 2 (chain2 s p q) 2 = applyFindTranspose (chain2 s p q) 2 := by
    simp only [processIns, hm]
    rfl
  rw [hstep, chain2_applyFT s p q n hql]

theorem chain2A_step2_nop (s : MShape) (p q : List Nat)
    (h2 : permuteShape q (permuteShape p s) = s) :
    processIns 2 (chain2A s p q) 2 = { chain2A s p q with ret := 0 } := by
  have hm : matchNop (chain2A s p q) 2 = true :=
    decide_eq_true ⟨of_decide_eq_true rfl, of_decide_eq_true rfl, h2⟩
  simp only [processIns, hm]
  rfl

theorem chain2A_step2_skip (s : MShape) (p q : List Nat)
    (h2 : permuteShape q (permuteShape p s) ≠ s) :
    processIns 2 (chain2A s p q) 2 = chain2A s p q := by
  have hm : matchNop (chain2A s p q) 2 = false :=
    decide_eq_false fun h => h2 h.2.2
  simp only [processIns, hm]
  rfl

theorem replaceWithOp_chain2 (s : MShape) (p q c : List Nat) :
    replaceWithOp (chain2 s p q) 2 (.transpose c) [0] = chain2B s p c := rfl

theorem chain2A0_step01 (s : MShape) (p q : List Nat) :
    processIns 2 (processIns 2 ({ chain2A s p q with ret := 0 }) 0) 1 =
      { chain2A s p q with ret := 0 } := rfl

theorem chain2A0_step2 (s : MShape) (p q : List Nat)
    (h2 : permuteShape q (permuteShape p s) = s) :
    processIns 2 ({ chain2A s p q with ret := 0 }) 2 =
      { chain2A s p q with ret := 0 } := by
  have hm : matchNop ({ chain2A s p q with ret := 0 }) 2 = true :=
    decide_eq_true ⟨of_decide_eq_true rfl, of_decide_eq_true rfl, h2⟩
  simp only [processIns, hm]
  rfl

theorem chain2A_step01 (s : MShape) (p q : List Nat) :
    processIns 2 (processIns 2 (chain2A s p q) 0) 1 = chain2A s p q := rfl

theorem chain2r1_step0 (s : MShape) (p q : List Nat) :
    processIns 2 ({ chain2 s p q with ret := 1 }) 0 =
      { chain2 s p q with ret := 1 } := rfl

theorem chain2r1_step1 (s : MShape) (p q : List Nat)
    (h1 : permuteShape p s ≠ s) :
    processIns 2 ({ chain2 s p q with ret := 1 }) 1 =
      { chain2 s p q with ret := 1 } := by
  have hm : matchNop ({ chain2 s p q with ret := 1 }) 1 = false :=
    decide_eq_false fun h => h1 h.2.2
  simp only [processIns, hm]
  rfl

theorem chain2r1_step2 (s : MShape) (p q : List Nat)
    (h2 : permuteShape q (permuteShape p s) = permuteShape p s) :
    processIns 2 ({ chain2 s p q with ret := 1 }) 2 =
      { chain2 s p q with ret := 1 } := by
  have hm : matchNop ({ chain2 s p q with ret := 1 }) 2 = true :=
    decide_eq_true ⟨of_decide_eq_true rfl, of_decide_eq_true rfl, h2⟩
  simp only [processIns, hm]
  rfl

theorem chain2r0_step0 (s : MShape) (p q : List Nat) :
    processIns 2 ({ chain2 s p q with ret := 0 }) 0 =
      { chain2 s p q with ret := 0 } := rfl

theorem chain2r0_step1 (s : MShape) (p q : List Nat)
    (h1 : permuteShape p s ≠ s) :
    processIns 2 ({ chain2 s p q with ret := 0 }) 1 =
      { chain2 s p q with ret := 0 } := by
  have hm : matchNop ({ chain2 s p q with ret := 0 }) 1 = false :=
    decide_eq_false fun h => h1 h.2.2
  simp only [processIns, hm]
  rfl

theorem chain2r0_applyFT (s : MShape) (p q : List Nat) (n : Nat)
    (hql : q.length = n)
    (hid : is_no_transpose (reorder_dims p q) = true) :
    applyFindTranspose ({ chain2 s p q with ret := 0 }) 2 =
      { chain2 s p q with ret := 0 } := by
  have hrank : (Prog.shapeAt ({ chain2 s p q with ret := 0 }) 2).lens.length = n := by
    show (permuteShape q (permuteShape p s)).lens.length = n
    simp [permuteShape, hql]
  have hfold : transposeFoldGo ({ chain2 s p q with ret := 0 })
      (({ chain2 s p q with ret := 0 } : Prog).instrs.length + 1)
      (List.range (Prog.shapeAt ({ chain2 s p q with ret := 0 }) 2).lens.length) 2
      = (reorder_dims p (reorder_dims q
          (List.range (Prog.shapeAt ({ chain2 s p q with ret := 0 }) 2).lens.length)), 1) := rfl
  simp only [applyFindTranspose]
  rw [hfold]
  show (if is_no_transpose (reorder_dims p (reorder_dims q
      (List.range (Prog.shapeAt ({ chain2 s p q with ret := 0 }) 2).lens.length))) = true
    then _ else _) = _
  rw [hrank, reorder_dims_range hql, hid]
  rfl

theorem chain2r0_step2 (s : MShape) (p q : List Nat) (n : Nat)
    (hql : q.length = n)
    (h2 : permuteShape q (permuteShape p s) ≠ permuteShape p s)
    (hid : is_no_transpose (reorder_dims p q) = true) :
    processIns 2 ({ chain2 s p q with ret := 0 }) 2 =
      { chain2 s p q with ret := 0 } := by
  have hm : matchNop ({ chain2 s p q with ret := 0 }) 2 = false :=
    decide_eq_false fun h => h2 h.2.2
  have hstep : processIns 2 ({ chain2 s p q with ret := 0 }) 2 =
      applyFindTranspose ({ chain2 s p q with ret := 0 }) 2 := by
    simp only [processIns, hm]
    rfl
  rw [hstep, chain2r0_applyFT s p q n hql hid]

theorem chain2B_step01 (s : MShape) (p c : List Nat) :
    processIns 2 (processIns 2 (chain2B s p c) 0) 1 = chain2B s p c := rfl

theorem chain2B_step2 (s : MShape) (p c : List Nat)
    (hshc : permuteShape c s ≠ s) :
    processIns 2 (chain2B s p c) 2 = chain2B s p c := by
  have hm : matchNop (chain2B s p c) 2 = false :=
    decide_eq_false fun h => hshc h.2.2
  simp only [processIns, hm]
  rfl

theorem sweep3 (P : Prog) (hids : P.instrs.map Prod.fst = [0, 1, 2])
    (hlast : ((P.instrs.getLast?).map Prod.fst).getD 0 = 2) :
    simplify_reshapes P =
      processIns 2 (processIns 2 (processIns 2 P 0) 1) 2 := by
  simp only [simplify_reshapes, hids, hlast, List.foldl_cons, List.foldl_nil]

/-- The delimiter fold of `operation_stream` over a nonempty field
list appends the comma-separated suffix and ends with delimiter
`,`. -/
theorem operation_stream_fold (l : List (String × Int)) (g : String × Int)
    (acc d : String) :
    (g :: l).foldl (fun a f => (a.1 ++ a.2 ++ fieldStr f, ",")) (acc, d) =
      (acc ++ d ++ fieldsSuffix (g :: l), ",") := by
  induction l generalizing g acc d with
  | nil => rfl
  | cons h t ih =>
    rw [List.foldl_cons]
    show List.foldl _ (acc ++ d ++ fieldStr g, ",") (h :: t) = _
    rw [ih h (acc ++ d ++ fieldStr g) ","]
    simp only [fieldsSuffix, Prod.mk.injEq, and_true]
    simp [String.append_assoc]

/-!  ## Claim theorems -/

/-- C1: for the concurrent-streams program (producers of shape
`f32[40]` on streams 0, 1 and 2 synchronized by record/wait event
pairs, followed by a concat on stream 0 that waits for them), the
memory_coloring pass with alignment 4 assigns no two concurrently
reachable allocations on different streams the same byte offset, and
the scratch parameter satisfies `scratch.bytes() == 960`. -/
theorem memory_coloring_concurrent_streams :
    (∀ a ∈ allocPositions concurrentProg,
      ∀ b ∈ allocPositions concurrentProg,
      a ≠ b →
      concReachable concurrentProg
        (reachTable (hbEdges concurrentProg) concurrentProg.length) a b = true →
      offsetOf concurrentProg 4 a ≠ offsetOf concurrentProg 4 b) ∧
    scratchBytes concurrentProg 4 = 960 := by
  constructor
  · decide
  · decide

/-- C2 counterexample: in the published three-allocation program
(`test11`: `f32[8]`, `f32[40]`, `f32[8]`), the live ranges of the
first allocation (position 1) and the third (position 6) DO overlap —
the first stays live through the alias chain until the consumer of
the second — and the third is not placed inside the first's region
`[160, 192)`: it gets the disjoint region starting at 192. -/
theorem memory_coloring_reuse_counterexample :
    rangesOverlap test11Prog 1 6 = true ∧
    offsetOf test11Prog 4 1 = 160 ∧ offsetOf test11Prog 4 6 = 192 ∧
    ¬ (offsetOf test11Prog 4 6 <
        offsetOf test11Prog 4 1 + (stdShape [8]).bytes ∧
      offsetOf test11Prog 4 1 ≤ offsetOf test11Prog 4 6) := by
  decide

/-- C2 (amended): in the `test11` program all three allocations
interfere pairwise (the first and third allocations' live ranges
overlap through the alias chain), so each allocation receives its own
region — offsets 0, 160 and 192 — every `allocate` instruction is
rewritten away, and `scratch.bytes() == 224`. -/
theorem memory_coloring_reuse_amended :
    (∀ a ∈ allocPositions test11Prog, ∀ b ∈ allocPositions test11Prog,
      a ≠ b →
      interfere test11Prog
        (reachTable (hbEdges test11Prog) test11Prog.length) a b = true) ∧
    placeAllocs test11Prog 4 = [(4, 0), (1, 160), (6, 192)] ∧
    scratchBytes test11Prog 4 = 224 ∧
    noAllocate (colorRewrite test11Prog 4) = true := by
  refine ⟨by decide, by decide, by decide, by decide⟩

/-- C3: `eliminate_allocation` with alignment 32 lays allocations out
sequentially, rounding the running byte total up to the alignment
before placing each allocation and taking the final size as the last
running total without a final round-up: for `f32[8]`, `f32[40]`,
`f32[200]` the offsets are 0, 32, 192, the final program shape is
`f32[200]` and `memory.bytes() == 992`; for `f32[1]`, `f32[2]`,
`f32[200]` it is 864. -/
theorem eliminate_allocation_layout :
    (eliminate_allocation.offsets 32
        [(stdShape [8]).bytes, (stdShape [40]).bytes, (stdShape [200]).bytes]
        = [0, 32, 192] ∧
      eliminate_allocation.memoryBytes 32
        [(stdShape [8]).bytes, (stdShape [40]).bytes, (stdShape [200]).bytes]
        = 992 ∧
      eliminate_allocation.programFinalShape
        [stdShape [8], stdShape [40], stdShape [200]] = some (stdShape [200])) ∧
    eliminate_allocation.memoryBytes 32
      [(stdShape [1]).bytes, (stdShape [2]).bytes, (stdShape [200]).bytes]
      = 864 ∧
    ∀ (align acc sz : Nat) (l : List Nat),
      (eliminate_allocation.layoutGo align acc (l ++ [sz])).2 =
        roundUp (eliminate_allocation.layoutGo align acc l).2 align + sz :=
  ⟨⟨by decide, by decide, by decide⟩, by decide, layoutGo_append_last⟩

/-- C4: on a program `x → transpose(p) → transpose(inverse(p))` over
any shape of matching rank, `simplify_reshapes` composes the two
permutations into the identity and replaces the chain with the
original input `x` (the result of the rewritten program is the
parameter, id 0). -/
theorem simplify_reshapes_transpose_inverse (n : Nat) (s : MShape)
    (p : List Nat) (hp : p.Perm (List.range n)) (hl : s.lens.length = n)
    (hs : s.strides.length = n) :
    (simplify_reshapes (chain2 s p (perm_inverse p))).ret = 0 := by
  have hlen : p.length = n := by simpa using hp.length_eq
  have hql : (perm_inverse p).length = n := by simp [perm_inverse, hlen]
  have hinv : permuteShape (perm_inverse p) (permuteShape p s) = s :=
    permuteShape_perm_inverse hp s hl hs
  by_cases h1 : permuteShape p s = s
  · have hp1 : simplify_reshapes (chain2 s p (perm_inverse p)) =
        { chain2A s p (perm_inverse p) with ret := 0 } := by
      rw [sweep3 (chain2 s p (perm_inverse p)) rfl rfl, chain2_step0,
        chain2_step1_nop _ _ _ h1, chain2A_step2_nop _ _ _ hinv]
    rw [hp1]
  · have h2 : permuteShape (perm_inverse p) (permuteShape p s) ≠
        permuteShape p s := by
      rw [hinv]
      exact fun hcon => h1 hcon.symm
    have hid : is_no_transpose (reorder_dims p (perm_inverse p)) = true := by
      rw [reorder_dims_perm_inverse hp]
      exact is_no_transpose_range n
    have hp1 : simplify_reshapes (chain2 s p (perm_inverse p)) =
        { chain2 s p (perm_inverse p) with ret := 0 } := by
      rw [sweep3 (chain2 s p (perm_inverse p)) rfl rfl, chain2_step0,
        chain2_step1_skip _ _ _ h1,
        chain2_step2_fold _ _ _ n hql h2, if_pos hid]
    rw [hp1]

/-- C4 witness: the published chain — `x : f32[2,3,4]`,
`transpose([2,0,1])`, `transpose([1,2,0])`, where `[1,2,0]` is the
inverse permutation of `[2,0,1]` — reduces to the parameter. -/
theorem simplify_reshapes_transpose_inverse_witness :
    perm_inverse [2, 0, 1] = [1, 2, 0] ∧
    (simplify_reshapes (chain2 (stdShape [2, 3, 4]) [2, 0, 1] [1, 2, 0])).ret
      = 0 := by
  refine ⟨by decide, ?_⟩
  exact simplify_reshapes_transpose_inverse 3 (stdShape [2, 3, 4]) [2, 0, 1]
    (by decide) rfl rfl

/-- C5 counterexample: `simplify_reshapes` is not idempotent on every
program.  On the chain `x : (lens [1,1,2], strides [2,2,1])` →
`transpose([2,0,1])` → `transpose([2,1,0])`, the first application
folds the pair into the single transpose `[1,0,2]`, which is not the
identity but preserves the shape; the second application then
nop-folds that transpose onto the parameter, changing the program
again. -/
theorem simplify_reshapes_not_idempotent :
    simplify_reshapes (simplify_reshapes cexChain) ≠
      simplify_reshapes cexChain := by
  decide

/-- C5 (amended): `simplify_reshapes` is not idempotent for every
program (see the counterexample); it is idempotent on two-transpose
chain programs whose folded permutation is the identity or yields a
shape different from the input's shape. -/
theorem simplify_reshapes_idempotent_on_folding_chains (s : MShape)
    (p q : List Nat) (n : Nat) (hql : q.length = n)
    (hex : is_no_transpose (reorder_dims p q) = true ∨
      permuteShape (reorder_dims p q) s ≠ s) :
    simplify_reshapes (simplify_reshapes (chain2 s p q)) =
      simplify_reshapes (chain2 s p q) := by
  by_cases h1 : permuteShape p s = s
  · by_cases h2 : permuteShape q (permuteShape p s) = s
    · have hp1 : simplify_reshapes (chain2 s p q) =
          { chain2A s p q with ret := 0 } := by
        rw [sweep3 (chain2 s p q) rfl rfl, chain2_step0,
          chain2_step1_nop s p q h1, chain2A_step2_nop s p q h2]
      have hp2 : simplify_reshapes ({ chain2A s p q with ret := 0 }) =
          { chain2A s p q with ret := 0 } := by
        rw [sweep3 ({ chain2A s p q with ret := 0 }) rfl rfl,
          chain2A0_step01, chain2A0_step2 s p q h2]
      rw [hp1, hp2]
    · have hp1 : simplify_reshapes (chain2 s p q) = chain2A s p q := by
        rw [sweep3 (chain2 s p q) rfl rfl, chain2_step0,
          chain2_step1_nop s p q h1, chain2A_step2_skip s p q h2]
      have hp2 : simplify_reshapes (chain2A s p q) = chain2A s p q := by
        rw [sweep3 (chain2A s p q) rfl rfl, chain2A_step01,
          chain2A_step2_skip s p q h2]
      rw [hp1, hp2]
  · by_cases h2 : permuteShape q (permuteShape p s) = permuteShape p s
    · have hp1 : simplify_reshapes (chain2 s p q) =
          { chain2 s p q with ret := 1 } := by
        rw [sweep3 (chain2 s p q) rfl rfl, chain2_step0,
          chain2_step1_skip s p q h1, chain2_step2_nop s p q h2]
      have hp2 : simplify_reshapes ({ chain2 s p q with ret := 1 }) =
          { chain2 s p q with ret := 1 } := by
        rw [sweep3 ({ chain2 s p q with ret := 1 }) rfl rfl,
          chain2r1_step0, chain2r1_step1 s p q h1, chain2r1_step2 s p q h2]
      rw [hp1, hp2]
    · by_cases hid : is_no_transpose (reorder_dims p q) = true
      · have hp1 : simplify_reshapes (chain2 s p q) =
            { chain2 s p q with ret := 0 } := by
          rw [sweep3 (chain2 s p q) rfl rfl, chain2_step0,
            chain2_step1_skip s p q h1,
            chain2_step2_fold s p q n hql h2, if_pos hid]
        have hp2 : simplify_reshapes ({ chain2 s p q with ret := 0 }) =
            { chain2 s p q with ret := 0 } := by
          rw [sweep3 ({ chain2 s p q with ret := 0 }) rfl rfl,
            chain2r0_step0, chain2r0_step1 s p q h1,
            chain2r0_step2 s p q n hql h2 hid]
        rw [hp1, hp2]
      · have hshc : permuteShape (reorder_dims p q) s ≠ s :=
          hex.resolve_left hid
        have hp1 : simplify_reshapes (chain2 s p q) =
            chain2B s p (reorder_dims p q) := by
          rw [sweep3 (chain2 s p q) rfl rfl, chain2_step0,
            chain2_step1_skip s p q h1,
            chain2_step2_fold s p q n hql h2, if_neg hid, replaceWithOp_chain2]
        have hp2 : simplify_reshapes (chain2B s p (reorder_dims p q)) =
            chain2B s p (reorder_dims p q) := by
          rw [sweep3 (chain2B s p (reorder_dims p q)) rfl rfl,
            chain2B_step01, chain2B_step2 s p (reorder_dims p q) hshc]
        rw [hp1, hp2]

/-- C5 witness: the published identity-folding chain is a fixpoint of
the pass after one application. -/
theorem simplify_reshapes_idempotent_on_folding_chains_witness :
    simplify_reshapes
        (simplify_reshapes (chain2 (stdShape [2, 3, 4]) [2, 0, 1] [1, 2, 0]))
      = simplify_reshapes (chain2 (stdShape [2, 3, 4]) [2, 0, 1] [1, 2, 0]) :=
  simplify_reshapes_idempotent_on_folding_chains (stdShape [2, 3, 4])
    [2, 0, 1] [1, 2, 0] 3 rfl (Or.inl (by decide))

/-- C6: the context-taking entry point dispatches to the operator's
context-taking `compute` overload when one exists, otherwise to its
context-free overload, and otherwise throws "Not computable";
symmetrically the context-free entry point uses the context-free
overload, throws "Not computable without a context" when only a
context-taking overload exists, and "Not computable" when neither
exists. -/
theorem operation_compute_dispatch (x : ConcreteOp) (ctx : Context)
    (out : MShape) (input : List Argument) :
    (∀ f, x.ctxCompute = some f →
      compute_op_ctx x ctx out input = .ok (f ctx out input)) ∧
    (x.ctxCompute = none → ∀ g, x.freeCompute = some g →
      compute_op_ctx x ctx out input = .ok (g out input)) ∧
    (x.ctxCompute = none → x.freeCompute = none →
      compute_op_ctx x ctx out input =
        .error ("Not computable: " ++ x.opname)) ∧
    (∀ g, x.freeCompute = some g →
      compute_op_free x out input = .ok (g out input)) ∧
    (x.freeCompute = none → ∀ f, x.ctxCompute = some f →
      compute_op_free x out input =
        .error ("Not computable without a context: " ++ x.opname)) ∧
    (x.freeCompute = none → x.ctxCompute = none →
      compute_op_free x out input =
        .error ("Not computable: " ++ x.opname)) := by
  refine ⟨?_, ?_, ?_, ?_, ?_, ?_⟩
  · intro f hf
    simp [compute_op_ctx, hf]
  · intro hc g hg
    simp [compute_op_ctx, hc, hg]
  · intro hc hg
    simp [compute_op_ctx, hc, hg]
  · intro g hg
    simp [compute_op_free, hg]
  · intro hg f hf
    simp [compute_op_free, hg, hf]
  · intro hg hc
    simp [compute_op_free, hg, hc]

/-- C6 witness: a context-only operator computes through the
context-taking entry point but fails on the context-free one; a
context-free operator computes without a context; a bare placeholder
is not computable at all. -/
theorem operation_compute_dispatch_witness :
    compute_op_ctx opCtxOnly 0 (stdShape [2]) [] = .ok 0 ∧
    compute_op_free opCtxOnly (stdShape [2]) [] =
      .error "Not computable without a context: gpu::add" ∧
    compute_op_free opFreeOnly (stdShape [2]) [] = .ok 0 ∧
    compute_op_ctx opBare 0 (stdShape [2]) [] =
      .error "Not computable: outline" := by
  refine ⟨?_, ?_, ?_, ?_⟩
  · exact (operation_compute_dispatch opCtxOnly 0 (stdShape [2]) []).1 _ rfl
  · exact (operation_compute_dispatch opCtxOnly 0
      (stdShape [2]) []).2.2.2.2.1 rfl _ rfl
  · exact (operation_compute_dispatch opFreeOnly 0
      (stdShape [2]) []).2.2.2.1 _ rfl
  · exact (operation_compute_dispatch opBare 0 (stdShape [2]) []).2.2.1 rfl rfl

/-- C7: two operators held in type-erased containers compare equal
exactly when their names match and their reflected field value tuples
compare equal. -/
theorem operation_equal_spec (x y : ConcreteOp) :
    operation_equal x y = true ↔
      x.opname = y.opname ∧ reflect_tie x = reflect_tie y := by
  unfold operation_equal
  split
  next h => simp [h]
  next h =>
    have he : x.opname = y.opname := not_not.mp h
    simp [he]

/-- C8: streaming an operation prints its name, followed by a
bracketed `[field1=v1,field2=v2,...]` suffix exactly when the
operator has at least one reflected field, the fields appearing in
reflection order. -/
theorem operation_stream_form (x : ConcreteOp) :
    operation_stream x =
      x.opname ++
        (if x.fields = [] then ""
         else "[" ++ fieldsSuffix x.fields ++ "]") := by
  cases hf : x.fields with
  | nil =>
    simp only [operation_stream, hf, List.foldl_nil]
    simp
  | cons g t =>
    simp only [operation_stream, hf]
    rw [operation_stream_fold t g x.opname "["]
    simp [String.append_assoc]

/-- C9: `softmax::compute_shape` on a single standard input shape
throws the out-of-range error when the `axis` field is negative or at
least the input's rank, and otherwise returns the input shape
unchanged. -/
theorem softmax_compute_shape_spec (axis : Int) (s : MShape)
    (hstd : s.standard) :
    ((axis < 0 ∨ (s.lens.length : Int) ≤ axis) →
      softmax_compute_shape axis [s] =
        .error ("SoftMax: input axis value " ++ toString axis ++
          " is out of range")) ∧
    (0 ≤ axis → axis < (s.lens.length : Int) →
      softmax_compute_shape axis [s] = .ok s) := by
  constructor
  · intro hout
    simp only [softmax_compute_shape]
    rw [if_neg (not_not_intro hstd), if_pos hout]
  · intro hlo hhi
    simp only [softmax_compute_shape]
    rw [if_neg (not_not_intro hstd), if_neg]
    push_neg
    exact ⟨hlo, hhi⟩

/-- C9 witness: on the standard shape `f32[2,3,4]`, axis 3 is
rejected as out of range and axis 1 returns the shape unchanged. -/
theorem softmax_compute_shape_spec_witness :
    softmax_compute_shape 3 [stdShape [2, 3, 4]] =
      .error ("SoftMax: input axis value " ++ toString (3 : Int) ++
        " is out of range") ∧
    softmax_compute_shape 1 [stdShape [2, 3, 4]] = .ok (stdShape [2, 3, 4]) :=
  ⟨(softmax_compute_shape_spec 3 (stdShape [2, 3, 4]) (by decide)).1
      (by decide),
    (softmax_compute_shape_spec 1 (stdShape [2, 3, 4]) (by decide)).2
      (by decide) (by decide)⟩

/-- C10: an operator that does not declare an `output_alias` member
reports `-1` (no output aliases any input) for every input shape
vector. -/
theorem output_alias_defaults (x : ConcreteOp)
    (h : x.outputAliasFn = none) :
    ∀ shapes, output_alias_op x shapes = -1 := by
  intro shapes
  simp [output_alias_op, h]

/-- C10 witness: the bare placeholder operator has no `output_alias`
member and reports `-1`. -/
theorem output_alias_defaults_witness :
    output_alias_op opBare [stdShape [2]] = -1 :=
  output_alias_defaults opBare rfl [stdShape [2]]

end MIGraphX
